import Mathlib

/-!
# Verification of the api-client-tui persistent store and response pipeline

A shallow embedding of the Go sources (`features.go`, `main.go`) of
`nutcas3/api-client-tui`, together with theorems about the store
operations (history, collections, environments), the response decode
pipeline, header parsing and collection search.

Modelling conventions:
* `time.Time` / `time.Duration` values are modelled as `Nat` / `Int`
  timestamps; the code only ever stamps them with the current time.
* Go maps (`map[string]Collection`, `map[string]Environment`, header
  maps) are modelled as association lists with key-replacing insertion;
  only lookups are ever observed by the claims considered here.
* File persistence (`os.WriteFile`, JSON marshalling) is abstracted as
  always succeeding: every operation returns its in-memory result state
  together with `Option String` as its error (`none` = success), which
  matches the Go `error` results on the success path.
* Byte strings are `List Nat` (each entry < 256), rune sequences are
  `List Nat` codepoints.
-/

/-- Mirrors the Go struct `RequestItem` from `features.go`.  `time.Time`
fields are modelled as `Nat` timestamps. -/
structure RequestItem where
  ID : String
  Name : String
  URL : String
  Method : String
  Headers : List (String × String)
  Body : String
  CreatedAt : Nat
  LastUsed : Nat
  Collections : List String
deriving DecidableEq

/-- Mirrors the Go struct `Collection` from `features.go`. -/
structure Collection where
  Name : String
  Requests : List RequestItem
deriving DecidableEq

/-- Mirrors the Go struct `Environment` from `features.go`. -/
structure Environment where
  Name : String
  Variables : List (String × String)
deriving DecidableEq

/-- Mirrors the Go struct `Config` from `features.go`.  Go `int` fields
are modelled as `Int`. -/
structure Config where
  Theme : String
  Timeout : Int
  HistoryLimit : Int
  AutoFormatJSON : Bool
  SaveHistory : Bool
  CurrentEnv : String
  ShowResponseTime : Bool
  TruncateResponse : Int
  SyntaxHighlighting : Bool
deriving DecidableEq

/-- Mirrors the in-memory state of the Go struct `ConfigManager`
(`features.go`).  The `configDir` path and the mutex are not part of the
data state; the lock discipline is modelled separately by lock traces. -/
structure ConfigManager where
  Config : Config
  History : List RequestItem
  Collections : List (String × Collection)
  Environments : List (String × Environment)
deriving DecidableEq

/-- Lookup in a Go map modelled as an association list. -/
def mapLookup {α : Type} (m : List (String × α)) (k : String) : Option α :=
  (m.find? (fun p => p.1 == k)).map Prod.snd

/-- Assignment `m[k] = v` in a Go map modelled as an association list:
replace the value at `k` when present, otherwise add the binding. -/
def mapInsert {α : Type} (m : List (String × α)) (k : String) (v : α) :
    List (String × α) :=
  if (m.find? (fun p => p.1 == k)).isSome then
    m.map (fun p => if p.1 == k then (k, v) else p)
  else
    m ++ [(k, v)]

/-- The `(url, method)` comparison used by the loops in `addToHistory`
and `addToCollection`: `item.URL == req.URL && item.Method == req.Method`. -/
def pairMatch (req : RequestItem) (item : RequestItem) : Bool :=
  item.URL == req.URL && item.Method == req.Method

/-- The history mutation performed by `addToHistory` (`features.go`)
before it calls `saveHistory`: find the first entry with the same
`(url, method)`; if found, update its `LastUsed` stamp and, when it is
not already at index 0, move it to the front of the list (the Go
composite literal `[]RequestItem{cm.History[i]}` is evaluated before the
in-place inner `append`, so the moved element is read before the shift);
otherwise stamp the new item and prepend it. -/
def historyUpdate (h : List RequestItem) (req : RequestItem) (now : Nat) :
    List RequestItem :=
  match h.findIdx? (pairMatch req) with
  | some i =>
      if hi : i < h.length then
        let upd := { h.get ⟨i, hi⟩ with LastUsed := now }
        let h1 := h.set i upd
        if 0 < i then upd :: h1.eraseIdx i else h1
      else h  -- unreachable: findIdx? only returns in-range indices
  | none => { req with CreatedAt := now, LastUsed := now } :: h

/-- Mirrors `saveHistory` (`features.go`): no-op returning success when
history saving is disabled; otherwise truncate the history to the
configured limit when it is longer, then persist (the file write is
abstracted as succeeding).  Go would panic on a negative limit with an
over-long history; such states never arise in the theorems below. -/
def saveHistory (cm : ConfigManager) : ConfigManager × Option String :=
  if !cm.Config.SaveHistory then (cm, none)
  else if (cm.History.length : Int) > cm.Config.HistoryLimit then
    ({ cm with History := cm.History.take cm.Config.HistoryLimit.toNat }, none)
  else (cm, none)

/-- Mirrors `addToHistory` (`features.go`): both branches of the loop
end by storing the mutated history and calling `saveHistory`. -/
def addToHistory (cm : ConfigManager) (req : RequestItem) (now : Nat) :
    ConfigManager × Option String :=
  saveHistory { cm with History := historyUpdate cm.History req now }

/-- Mirrors `addToCollection` (`features.go`): fetch or create the named
collection; replace the first `(url, method)`-matching entry in place,
else append; store the collection back and persist. -/
def addToCollection (cm : ConfigManager) (collectionName : String)
    (req : RequestItem) : ConfigManager × Option String :=
  let collection := (mapLookup cm.Collections collectionName).getD
    { Name := collectionName, Requests := [] }
  match collection.Requests.findIdx? (pairMatch req) with
  | some i =>
      let c := { collection with Requests := collection.Requests.set i req }
      ({ cm with Collections := mapInsert cm.Collections collectionName c }, none)
  | none =>
      let c := { collection with Requests := collection.Requests ++ [req] }
      ({ cm with Collections := mapInsert cm.Collections collectionName c }, none)

/-- Mirrors `SetCurrentEnv` (`features.go`): fail with a not-found error
when the name is unknown, otherwise update `Config.CurrentEnv` and
persist via `saveConfigLocked`. -/
def SetCurrentEnv (cm : ConfigManager) (envName : String) :
    ConfigManager × Option String :=
  if (mapLookup cm.Environments envName).isSome then
    ({ cm with Config := { cm.Config with CurrentEnv := envName } }, none)
  else
    (cm, some ("environment " ++ envName ++ " not found"))

/-- Go `strings.Contains s sub`: `sub` occurs as a contiguous substring
of `s` (at some offset `i`). -/
def goContains (s sub : String) : Bool :=
  (List.range (s.toList.length + 1)).any
    (fun i => (s.toList.drop i).take sub.toList.length == sub.toList)

/-- Go `strings.EqualFold` restricted to the ASCII fold, which is all
the HTTP method comparison in the source ever exercises. -/
def goEqualFold (a b : String) : Bool :=
  a.toList.map Char.toLower == b.toList.map Char.toLower

/-- Mirrors `FindRequestsInCollections` (`features.go`): collect, over
all collections, the requests matching both the URL-substring criterion
and the method criterion, an empty argument short-circuiting to true. -/
def FindRequestsInCollections (cm : ConfigManager)
    (urlSubstr methodSubstr : String) : List RequestItem :=
  cm.Collections.foldl
    (fun acc p =>
      acc ++ p.2.Requests.filter (fun req =>
        (urlSubstr == "" || goContains req.URL urlSubstr) &&
        (methodSubstr == "" || goEqualFold req.Method methodSubstr)))
    []

/-- All requests of all collections, in collection-then-request order:
the result of `FindRequestsInCollections` with no criteria. -/
def allCollectionRequests (cm : ConfigManager) : List RequestItem :=
  cm.Collections.foldl (fun acc p => acc ++ p.2.Requests) []

/-! ## Response decoding (`main.go`) -/

/-- Go `unicode.IsSpace` on the code points `strings.TrimSpace` trims:
ASCII space characters plus NEL and NBSP. -/
def goIsSpace (c : Char) : Bool :=
  c == ' ' || c == '\t' || c == '\n' || c == Char.ofNat 11 ||
  c == Char.ofNat 12 || c == '\r' || c == Char.ofNat 0x85 || c == Char.ofNat 0xA0

/-- Go `strings.TrimSpace`: drop leading and trailing white space. -/
def goTrimSpace (s : String) : String :=
  String.mk (((s.toList.dropWhile goIsSpace).reverse.dropWhile goIsSpace).reverse)

/-- Go `strings.LastIndex s sub`: the greatest offset at which `sub`
occurs in `s`, if any. -/
def goLastIndex (s sub : List Char) : Option Nat :=
  ((List.range (s.length + 1)).filter
    (fun i => (s.drop i).take sub.length == sub)).getLast?

/-- The charset extraction of `sendRequest` (`main.go`): default
`"utf-8"`; after the last `"charset="` occurrence, trim space and cut at
the first `';'`. -/
def extractEncoding (contentType : String) : String :=
  match goLastIndex contentType.toList "charset=".toList with
  | none => "utf-8"
  | some idx =>
      let enc := goTrimSpace (String.mk (contentType.toList.drop (idx + 8)))
      match enc.toList.findIdx? (fun c => c == ';') with
      | some j => String.mk (enc.toList.take j)
      | none => enc

/-- One UTF-8 sequence, as accepted by Go `utf8.DecodeRune`: given a
leading byte and the remaining bytes, return the code point and how many
continuation bytes were consumed, or `none` when the input at this
position is ill-formed (overlong form, surrogate, beyond U+10FFFF,
truncated or bad continuation). -/
def utf8First (b : Nat) (rest : List Nat) : Option (Nat × Nat) :=
  if b < 0x80 then some (b, 0)
  else if b < 0xC2 then none
  else if b < 0xE0 then
    match rest with
    | c1 :: _ =>
        if 0x80 ≤ c1 && c1 < 0xC0 then
          some ((b - 0xC0) * 64 + (c1 - 0x80), 1)
        else none
    | [] => none
  else if b < 0xF0 then
    match rest with
    | c1 :: c2 :: _ =>
        let lo1 := if b == 0xE0 then 0xA0 else 0x80
        let hi1 := if b == 0xED then 0xA0 else 0xC0
        if (decide (lo1 ≤ c1) && decide (c1 < hi1)) &&
           (decide (0x80 ≤ c2) && decide (c2 < 0xC0)) then
          some ((b - 0xE0) * 4096 + (c1 - 0x80) * 64 + (c2 - 0x80), 2)
        else none
    | _ => none
  else if b < 0xF5 then
    match rest with
    | c1 :: c2 :: c3 :: _ =>
        let lo1 := if b == 0xF0 then 0x90 else 0x80
        let hi1 := if b == 0xF4 then 0x90 else 0xC0
        if (decide (lo1 ≤ c1) && decide (c1 < hi1)) &&
           (decide (0x80 ≤ c2) && decide (c2 < 0xC0)) &&
           (decide (0x80 ≤ c3) && decide (c3 < 0xC0)) then
          some ((b - 0xF0) * 262144 + (c1 - 0x80) * 4096 +
                (c2 - 0x80) * 64 + (c3 - 0x80), 3)
        else none
    | _ => none
  else none

/-- Go `utf8.Valid` on a byte string: every position starts a
well-formed sequence. -/
def utf8Valid : List Nat → Bool
  | [] => true
  | b :: rest =>
    match utf8First b rest with
    | some (_, k) => utf8Valid (rest.drop k)
    | none => false
termination_by l => l.length
decreasing_by
  simp only [List.length_cons]
  have := List.length_drop k rest
  omega

/-- Decoding a Go byte string to runes (the semantics of ranging over
`string(b)` and of `strings.Map`): each well-formed sequence yields its
code point, each ill-formed position yields U+FFFD and consumes one
byte. -/
def utf8DecodeRunes : List Nat → List Nat
  | [] => []
  | b :: rest =>
    match utf8First b rest with
    | some (cp, k) => cp :: utf8DecodeRunes (rest.drop k)
    | none => 0xFFFD :: utf8DecodeRunes rest
termination_by l => l.length
decreasing_by
  · simp only [List.length_cons]
    have := List.length_drop k rest
    omega
  · simp

/-- UTF-8 encoding of one code point (the byte form Go produces when
converting runes back to a string). -/
def utf8EncodeChar (c : Nat) : List Nat :=
  if c < 0x80 then [c]
  else if c < 0x800 then [0xC0 + c / 64, 0x80 + c % 64]
  else if c < 0x10000 then
    [0xE0 + c / 4096, 0x80 + (c / 64) % 64, 0x80 + c % 64]
  else
    [0xF0 + c / 262144, 0x80 + (c / 4096) % 64, 0x80 + (c / 64) % 64,
     0x80 + c % 64]

/-- UTF-8 encoding of a rune sequence. -/
def utf8Encode (cs : List Nat) : List Nat :=
  (cs.map utf8EncodeChar).flatten

/-- The WHATWG windows-1252 single-byte decode table used by the
`golang.org/x/text` charmap decoder: bytes 0x80–0x9F map to the listed
code points, every other byte maps to itself. -/
def windows1252Table (b : Nat) : Nat :=
  match (([(0x80, 0x20AC), (0x82, 0x201A), (0x83, 0x0192), (0x84, 0x201E),
          (0x85, 0x2026), (0x86, 0x2020), (0x87, 0x2021), (0x88, 0x02C6),
          (0x89, 0x2030), (0x8A, 0x0160), (0x8B, 0x2039), (0x8C, 0x0152),
          (0x8E, 0x017D), (0x91, 0x2018), (0x92, 0x2019), (0x93, 0x201C),
          (0x94, 0x201D), (0x95, 0x2022), (0x96, 0x2013), (0x97, 0x2014),
          (0x98, 0x02DC), (0x99, 0x2122), (0x9A, 0x0161), (0x9B, 0x203A),
          (0x9C, 0x0153), (0x9E, 0x017E), (0x9F, 0x0178)] :
            List (Nat × Nat)).find? (fun p => p.1 == b)) with
  | some p => p.2
  | none => b

/-- The `htmlindex.Get` decoder lookup (`golang.org/x/text`), modelled
for the single-byte encodings this development needs.  A decoder maps a
byte string to the rune sequence it denotes.  The WHATWG label
`iso-8859-1` resolves to the windows-1252 codec.  The multi-byte codecs
(`shift-jis`, `gbk`, `big5`) are outside the model and are treated as a
failed lookup; in `tryAlternativeEncodings` they sit after windows-1252,
whose decode is total and always yields valid UTF-8, so they are never
consulted. -/
def htmlindexGet (name : String) : Option (List Nat → List Nat) :=
  if name == "windows-1252" || name == "iso-8859-1" then
    some (fun bs => bs.map windows1252Table)
  else none

/-- The decode step of `sendRequest` (`main.go`): when a non-UTF-8
charset is declared and its decoder produces valid UTF-8, use that;
otherwise fall back to re-encoding the runes of the raw bytes with
`strings.Map`, which sends `utf8.RuneError` to `'�'` (each invalid
byte thus becomes the replacement character). -/
def decodeStep (respBody : List Nat) (contentType : String) : List Nat :=
  let encoding := extractEncoding contentType
  let decodedBody : Option (List Nat) :=
    if encoding != "utf-8" && encoding != "UTF-8" then
      match htmlindexGet encoding with
      | some dec =>
          let decoded := utf8Encode (dec respBody)
          if utf8Valid decoded then some decoded else none
      | none => none
    else none
  match decodedBody with
  | some d => d
  | none =>
      utf8Encode ((utf8DecodeRunes respBody).map
        (fun r => if r == 0xFFFD then 0xFFFD else r))

/-- Mirrors `tryAlternativeEncodings` (`main.go`): walk the fixed list
of fallback encodings and return the first decode that is valid UTF-8,
or the input unchanged when none works.  This function is what the spec
describes as the fallback step of the decoder. -/
def tryAlternativeEncodings (input : List Nat) : List Nat :=
  let encodings := ["windows-1252", "iso-8859-1", "shift-jis", "gbk", "big5"]
  let result := encodings.foldl
    (fun acc encoding =>
      match acc with
      | some d => some d
      | none =>
          match htmlindexGet encoding with
          | some dec =>
              let decoded := utf8Encode (dec input)
              if utf8Valid decoded then some decoded else none
          | none => none)
    none
  result.getD input

/-! ## Header parsing and the response size limit (`main.go`) -/

/-- The per-line step of the `parseHeaders` loop (`main.go`): trim the
line, skip it when blank, split at the first `':'`, trim key and value,
and drop the line when the key is empty or there is no `':'`. -/
def entryOfLine (line : String) : Option (String × String) :=
  let l := goTrimSpace line
  if l == "" then none
  else
    match l.toList.findIdx? (fun c => c == ':') with
    | some j =>
        let key := goTrimSpace (String.mk (l.toList.take j))
        let value := goTrimSpace (String.mk (l.toList.drop (j + 1)))
        if key == "" then none else some (key, value)
    | none => none

/-- Go `strings.Split input "\\n"` on the character list: the segments
between newline characters, in order (always at least one segment). -/
def goSplitLines : List Char → List (List Char)
  | [] => [[]]
  | c :: rest =>
    let r := goSplitLines rest
    if c == '\n' then [] :: r
    else (c :: r.headD []) :: r.tail

/-- Mirrors `parseHeaders` (`main.go`): split the input on newlines and
insert each well-formed `key: value` line into the header map, later
lines overwriting earlier bindings of the same key. -/
def parseHeaders (input : String) : List (String × String) :=
  ((goSplitLines input.toList).map String.mk).foldl
    (fun m line =>
      match entryOfLine line with
      | some kv => mapInsert m kv.1 kv.2
      | none => m)
    []

/-- Mirrors the Go struct `Response` (`main.go`).  `time.Duration` and
`int64` fields are `Int`; the `error` field is `Option String` (`none`
= nil). -/
structure Response where
  StatusCode : Int
  Status : String
  Headers : List (String × String)
  Body : String
  FormattedBody : String
  ResponseTime : Int
  Error : Option String
  ContentLength : Int
deriving DecidableEq

/-- The transport-level response data `sendRequest` receives from
`client.Do` (`main.go`). -/
structure TransportResponse where
  StatusCode : Int
  Status : String
  Headers : List (String × String)
  ContentLength : Int
deriving DecidableEq

/-- The declared-size check of `sendRequest` (`main.go`): when the
declared `Content-Length` exceeds 10 MiB, return early with an error
`Response` that carries status, headers, elapsed time and content
length but leaves both body fields at their zero value.  The error
message interpolates the size in MB as a float; the model keeps the
fixed part of the message.  `none` means the check passed and decoding
proceeds. -/
def sendRequestSizeCheck (resp : TransportResponse) (responseTime : Int) :
    Option Response :=
  if resp.ContentLength > 10 * 1024 * 1024 then
    some { StatusCode := resp.StatusCode
           Status := resp.Status
           Headers := resp.Headers
           Body := ""
           FormattedBody := ""
           ResponseTime := responseTime
           Error := some "response too large - size limit is 10MB"
           ContentLength := resp.ContentLength }
  else none

/-! ## Lock traces (`features.go`)

The mutex discipline of `ConfigManager` is modelled by the sequence of
`mu.Lock` / `mu.Unlock` operations each exported operation performs,
read off the source: `Lock()` at entry and the deferred `Unlock()` at
exit, plus whatever any helper it calls performs on the same mutex. -/

/-- A single operation on the store's `sync.Mutex`. -/
inductive LockOp where
  | acq : LockOp
  | rel : LockOp
deriving DecidableEq

/-- `saveHistory` (`features.go`) acquires and releases the mutex
itself (`cm.mu.Lock()` at entry, deferred `cm.mu.Unlock()`). -/
def saveHistoryLockTrace : List LockOp := [LockOp.acq, LockOp.rel]

/-- `saveConfigLocked` (`features.go`) performs no mutex operations: it
assumes the lock is already held. -/
def saveConfigLockedLockTrace : List LockOp := []

/-- `addToHistory` (`features.go`): `cm.mu.Lock()` at entry, then both
return paths call `cm.saveHistory()` while the deferred unlock is still
pending. -/
def addToHistoryLockTrace : List LockOp :=
  [LockOp.acq] ++ saveHistoryLockTrace ++ [LockOp.rel]

/-- `addToCollection` (`features.go`): lock at entry, persist inline
("Save without acquiring lock again"), deferred unlock. -/
def addToCollectionLockTrace : List LockOp := [LockOp.acq] ++ [LockOp.rel]

/-- `SetCurrentEnv` (`features.go`): lock at entry, persist through
`saveConfigLocked`, deferred unlock. -/
def setCurrentEnvLockTrace : List LockOp :=
  [LockOp.acq] ++ saveConfigLockedLockTrace ++ [LockOp.rel]

/-- Whether a trace ever performs an acquire while the same
(non-reentrant) mutex is already held, starting from hold depth `d`. -/
def acquiresWhileHeld : Nat → List LockOp → Bool
  | _, [] => false
  | d, LockOp.acq :: rest => if 0 < d then true else acquiresWhileHeld (d + 1) rest
  | d, LockOp.rel :: rest => acquiresWhileHeld (d - 1) rest

/-! ## Lemmas about the map model -/

theorem mapLookup_cons {α : Type} (p : String × α) (m : List (String × α))
    (k : String) :
    mapLookup (p :: m) k = if p.1 == k then some p.2 else mapLookup m k := by
  by_cases h : p.1 == k <;> simp [mapLookup, List.find?_cons, h]

theorem mapLookup_append {α : Type} (m₁ m₂ : List (String × α)) (k : String) :
    mapLookup (m₁ ++ m₂) k = (mapLookup m₁ k).or (mapLookup m₂ k) := by
  unfold mapLookup
  rw [List.find?_append]
  cases m₁.find? (fun p => p.1 == k) <;> simp

theorem mapLookup_map_replace {α : Type} {k k0 : String} (v : α) (h : k ≠ k0) :
    ∀ m : List (String × α),
      mapLookup (m.map (fun p => if p.1 == k then (k, v) else p)) k0 =
        mapLookup m k0 := by
  intro m
  induction m with
  | nil => rfl
  | cons p m ih =>
      by_cases hp : p.1 == k
      · rw [List.map_cons, if_pos hp, mapLookup_cons, mapLookup_cons, ih]
        have hk : (k == k0) = false := beq_false_of_ne h
        have hp0 : (p.1 == k0) = false := by
          simp only [beq_iff_eq] at hp
          exact beq_false_of_ne (hp ▸ h)
        rw [hk, hp0]
        simp
      · rw [List.map_cons, if_neg hp, mapLookup_cons, mapLookup_cons, ih]

theorem mapLookup_map_replace_self {α : Type} {k : String} (v : α) :
    ∀ m : List (String × α),
      (m.find? (fun p => p.1 == k)).isSome = true →
      mapLookup (m.map (fun p => if p.1 == k then (k, v) else p)) k = some v := by
  intro m
  induction m with
  | nil => intro h; simp [List.find?] at h
  | cons p m ih =>
      intro h
      by_cases hp : p.1 == k
      · rw [List.map_cons, if_pos hp, mapLookup_cons]
        simp
      · rw [List.map_cons, if_neg hp, mapLookup_cons, if_neg hp]
        have hp2 : (p.1 == k) = false := by simpa using hp
        rw [List.find?_cons, hp2] at h
        exact ih h

theorem mapLookup_mapInsert {α : Type} (m : List (String × α)) (k : String)
    (v : α) (k0 : String) :
    mapLookup (mapInsert m k v) k0 =
      if k = k0 then some v else mapLookup m k0 := by
  unfold mapInsert
  by_cases hm : (m.find? (fun p => p.1 == k)).isSome
  · rw [if_pos hm]
    by_cases hk : k = k0
    · subst hk
      rw [if_pos rfl]
      exact mapLookup_map_replace_self v m hm
    · rw [if_neg hk]
      exact mapLookup_map_replace v hk m
  · have hfind : m.find? (fun p => p.1 == k) = none := by
      cases hfind : m.find? (fun p => p.1 == k) with
      | none => rfl
      | some p => rw [hfind] at hm; simp at hm
    rw [if_neg hm, mapLookup_append]
    by_cases hk : k = k0
    · subst hk
      have hnone : mapLookup m k = none := by
        unfold mapLookup; rw [hfind]; rfl
      rw [hnone, if_pos rfl, mapLookup_cons]
      simp
    · rw [if_neg hk, mapLookup_cons]
      have hk0 : (k == k0) = false := beq_false_of_ne hk
      rw [hk0]
      simp [mapLookup]

/-! ## Collection search (claim C10) -/

theorem foldl_append_acc {α β : Type} (f : α → List β) (l : List α) :
    ∀ acc : List β,
      l.foldl (fun a x => a ++ f x) acc = acc ++ l.foldl (fun a x => a ++ f x) [] := by
  induction l with
  | nil => intro acc; simp
  | cons x xs ih =>
      intro acc
      rw [List.foldl_cons, List.foldl_cons, ih (acc ++ f x), ih ([] ++ f x)]
      simp

theorem findRequests_eq_filter (cm : ConfigManager) (u m : String) :
    FindRequestsInCollections cm u m =
      (allCollectionRequests cm).filter
        (fun req => (u == "" || goContains req.URL u) &&
                    (m == "" || goEqualFold req.Method m)) := by
  unfold FindRequestsInCollections allCollectionRequests
  generalize cm.Collections = l
  induction l with
  | nil => rfl
  | cons c cs ih =>
      rw [List.foldl_cons, List.foldl_cons,
        foldl_append_acc
          (fun p : String × Collection => p.2.Requests.filter
            (fun req => (u == "" || goContains req.URL u) &&
                        (m == "" || goEqualFold req.Method m))) cs,
        foldl_append_acc (fun p : String × Collection => p.2.Requests) cs]
      simp only [List.nil_append]
      rw [ih, List.filter_append]

/-- C10: `FindRequestsInCollections` treats an empty URL-substring
filter and an empty method filter each as match-all: with both
arguments empty it returns every request of every collection, and with
one argument empty it filters by the other criterion alone. -/
theorem findRequestsInCollections_matchAll (cm : ConfigManager) (u m : String) :
    FindRequestsInCollections cm "" "" = allCollectionRequests cm
  ∧ FindRequestsInCollections cm u "" =
      (allCollectionRequests cm).filter
        (fun req => u == "" || goContains req.URL u)
  ∧ FindRequestsInCollections cm "" m =
      (allCollectionRequests cm).filter
        (fun req => m == "" || goEqualFold req.Method m) := by
  have hempty : (("" : String) == "") = true := rfl
  refine ⟨?_, ?_, ?_⟩ <;> rw [findRequests_eq_filter] <;> simp [hempty]

/-! ## Environments (claim C8) -/

/-- C8: For a name absent from the environment mapping, `SetCurrentEnv`
fails with a not-found error and leaves the whole store (in particular
`Config.CurrentEnv`) unchanged; for a present name it succeeds, sets
`Config.CurrentEnv` to the name, changes nothing else in `Config`, and
leaves history, collections and environments untouched. -/
theorem setCurrentEnv_spec (cm : ConfigManager) (envName : String) :
    (mapLookup cm.Environments envName = none →
       (SetCurrentEnv cm envName).2 =
         some ("environment " ++ envName ++ " not found") ∧
       (SetCurrentEnv cm envName).1 = cm)
  ∧ (∀ e, mapLookup cm.Environments envName = some e →
       (SetCurrentEnv cm envName).2 = none ∧
       (SetCurrentEnv cm envName).1.Config.CurrentEnv = envName ∧
       { (SetCurrentEnv cm envName).1.Config with
           CurrentEnv := cm.Config.CurrentEnv } = cm.Config ∧
       (SetCurrentEnv cm envName).1.History = cm.History ∧
       (SetCurrentEnv cm envName).1.Collections = cm.Collections ∧
       (SetCurrentEnv cm envName).1.Environments = cm.Environments) := by
  constructor
  · intro hnone
    unfold SetCurrentEnv
    rw [hnone]
    exact ⟨rfl, rfl⟩
  · intro e hsome
    unfold SetCurrentEnv
    rw [hsome]
    exact ⟨rfl, rfl, rfl, rfl, rfl, rfl⟩

/-- The default development environment shipped by `loadEnvironments`. -/
def envDev : Environment :=
  { Name := "development"
    Variables := [("BASE_URL", "http://localhost:3000"), ("API_KEY", "dev-key-123")] }

/-- The default configuration built by `NewConfigManager` (`features.go`). -/
def defaultConfig : Config :=
  { Theme := "dark"
    Timeout := 30
    HistoryLimit := 100
    AutoFormatJSON := true
    SaveHistory := true
    CurrentEnv := ""
    ShowResponseTime := true
    TruncateResponse := 1000
    SyntaxHighlighting := true }

/-- A store with only the development environment registered. -/
def cmEnvW : ConfigManager :=
  { Config := defaultConfig
    History := []
    Collections := []
    Environments := [("development", envDev)] }

theorem setCurrentEnv_spec_witness :
    (SetCurrentEnv cmEnvW "staging").1 = cmEnvW ∧
    (SetCurrentEnv cmEnvW "development").1.Config.CurrentEnv = "development" :=
  ⟨((setCurrentEnv_spec cmEnvW "staging").1 (by decide)).2,
   ((setCurrentEnv_spec cmEnvW "development").2 envDev (by decide)).2.1⟩

/-! ## Response size limit (claim C6) -/

/-- C6: when the declared `Content-Length` exceeds 10 MiB, the size
check of `sendRequest` returns an error `Response` whose status code,
status text, headers, elapsed time and content length are populated
from the received response and whose body and formatted body are
empty. -/
theorem sendRequestSizeCheck_large (resp : TransportResponse) (rt : Int)
    (h : resp.ContentLength > 10 * 1024 * 1024) :
    ∃ r, sendRequestSizeCheck resp rt = some r ∧
      r.Error.isSome = true ∧ r.StatusCode = resp.StatusCode ∧
      r.Status = resp.Status ∧ r.Headers = resp.Headers ∧
      r.ResponseTime = rt ∧ r.ContentLength = resp.ContentLength ∧
      r.Body = "" ∧ r.FormattedBody = "" := by
  unfold sendRequestSizeCheck
  rw [if_pos h]
  exact ⟨_, rfl, rfl, rfl, rfl, rfl, rfl, rfl, rfl, rfl⟩

/-- A transport response declaring an 11 MiB body. -/
def resp11MiB : TransportResponse :=
  { StatusCode := 200
    Status := "200 OK"
    Headers := [("Content-Type", "application/json")]
    ContentLength := 11 * 1024 * 1024 }

theorem sendRequestSizeCheck_large_witness :
    ∃ r, sendRequestSizeCheck resp11MiB 5 = some r ∧
      r.Error.isSome = true ∧ r.StatusCode = resp11MiB.StatusCode ∧
      r.Status = resp11MiB.Status ∧ r.Headers = resp11MiB.Headers ∧
      r.ResponseTime = 5 ∧ r.ContentLength = resp11MiB.ContentLength ∧
      r.Body = "" ∧ r.FormattedBody = "" :=
  sendRequestSizeCheck_large resp11MiB 5 (by decide)

/-! ## Lock discipline (claim C5) -/

/-- C5: the claim that no store method reacquires the mutex it already
holds fails on `addToHistory`: its lock trace acquires the mutex twice
(once itself and once inside the `saveHistory` it calls while still
holding the lock), which self-deadlocks a non-reentrant `sync.Mutex`.
The other mutating operations (`addToCollection`, `SetCurrentEnv`)
acquire the lock exactly once and persist through helpers that assume
the lock is held. -/
theorem addToHistory_lock_reacquired :
    addToHistoryLockTrace.count LockOp.acq = 2 ∧
    acquiresWhileHeld 0 addToHistoryLockTrace = true ∧
    addToCollectionLockTrace.count LockOp.acq = 1 ∧
    acquiresWhileHeld 0 addToCollectionLockTrace = false ∧
    setCurrentEnvLockTrace.count LockOp.acq = 1 ∧
    acquiresWhileHeld 0 setCurrentEnvLockTrace = false := by
  decide

/-! ## Decoding fallback (claim C4) -/

/-- C4: the decode step of `sendRequest` never consults the fallback
encodings.  The byte string `[0xE9]` fails UTF-8 validation and carries
no declared charset; the claimed behaviour would decode it through the
first fallback (windows-1252) to `"é"` (bytes `[0xC3, 0xA9]`), which is
exactly what `tryAlternativeEncodings` yields — but the decode step
instead produces the replacement character `[0xEF, 0xBF, 0xBD]`, because
`tryAlternativeEncodings` is defined in `main.go` and never called. -/
theorem decodeStep_ignores_fallback :
    utf8Valid [0xE9] = false ∧
    decodeStep [0xE9] "" = [0xEF, 0xBF, 0xBD] ∧
    tryAlternativeEncodings [0xE9] = [0xC3, 0xA9] ∧
    decodeStep [0xE9] "" ≠ tryAlternativeEncodings [0xE9] := by
  have h1 : utf8Valid [0xE9] = false := by
    simp [utf8Valid, utf8First]
  have h2 : decodeStep [0xE9] "" = [0xEF, 0xBF, 0xBD] := by
    simp [decodeStep, extractEncoding, goLastIndex, utf8DecodeRunes, utf8First,
      utf8Encode, utf8EncodeChar]
  have h3 : tryAlternativeEncodings [0xE9] = [0xC3, 0xA9] := by
    simp [tryAlternativeEncodings, htmlindexGet, windows1252Table, utf8Encode,
      utf8EncodeChar, utf8Valid, utf8First]
  refine ⟨h1, h2, h3, ?_⟩
  rw [h2, h3]
  decide

/-! ## Header parsing (claim C9) -/

theorem headersFold_lookup (lines : List String) :
    ∀ (m : List (String × String)) (k : String),
      mapLookup
        (lines.foldl
          (fun m line =>
            match entryOfLine line with
            | some kv => mapInsert m kv.1 kv.2
            | none => m) m) k =
      match (lines.reverse.filterMap entryOfLine).find? (fun p => p.1 == k) with
      | some p => some p.2
      | none => mapLookup m k := by
  induction lines with
  | nil => intro m k; rfl
  | cons line lines ih =>
      intro m k
      rw [List.foldl_cons, ih, List.reverse_cons, List.filterMap_append,
        List.find?_append]
      cases hrev : (lines.reverse.filterMap entryOfLine).find? (fun p => p.1 == k) with
      | some p => rfl
      | none =>
          simp only [Option.none_or]
          cases hline : entryOfLine line with
          | none =>
              simp only [List.filterMap_cons, hline, List.filterMap_nil,
                List.find?_nil]
          | some kv =>
              simp only [List.filterMap_cons, hline, List.filterMap_nil]
              rw [mapLookup_mapInsert]
              by_cases hk : kv.1 = k
              · rw [if_pos hk, List.find?_cons_of_pos _ (by simpa using hk)]
              · rw [if_neg hk, List.find?_cons_of_neg _ (by simpa using hk),
                  List.find?_nil]

/-- C9: `parseHeaders` binds each key to the value of the last line
producing an entry for it (later duplicate lines overwrite earlier
ones); no produced entry ever has an empty trimmed key, so a line whose
trimmed key is empty contributes nothing; and a line `"Key:"` yields an
entry with an empty value. -/
theorem parseHeaders_lastWins :
    (∀ (input : String) (k : String),
      mapLookup (parseHeaders input) k =
        ((((goSplitLines input.toList).map String.mk).reverse.filterMap
            entryOfLine).find? (fun p => p.1 == k)).map Prod.snd)
  ∧ (∀ line k v, entryOfLine line = some (k, v) → k ≠ "")
  ∧ entryOfLine "Key:" = some ("Key", "") := by
  refine ⟨?_, ?_, by decide⟩
  · intro input k
    unfold parseHeaders
    rw [headersFold_lookup]
    cases hfind : ((((goSplitLines input.toList).map String.mk).reverse.filterMap
        entryOfLine).find? (fun p => p.1 == k)) with
    | some p => rfl
    | none => rfl
  · intro line k v h
    unfold entryOfLine at h
    dsimp only [] at h
    split at h
    · exact absurd h (by simp)
    · split at h
      · split at h
        · exact absurd h (by simp)
        · next hkey =>
            simp only [Option.some.injEq, Prod.mk.injEq] at h
            intro hk
            exact hkey (by rw [h.1, hk]; rfl)
      · exact absurd h (by simp)

/-! ## History operations (claims C1, C2, C3) -/

theorem take_set_self {α : Type} (l : List α) (i : Nat) (a : α) :
    (l.set i a).take i = l.take i := by
  apply List.ext_getElem?
  intro j
  rw [List.getElem?_take, List.getElem?_take]
  by_cases hj : j < i
  · rw [if_pos hj, if_pos hj, List.getElem?_set_ne (by omega)]
  · rw [if_neg hj, if_neg hj]

theorem eraseIdx_set_same {α : Type} (l : List α) (i : Nat) (a : α) :
    (l.set i a).eraseIdx i = l.eraseIdx i := by
  rw [List.eraseIdx_eq_take_drop_succ, List.eraseIdx_eq_take_drop_succ,
    take_set_self, List.drop_set_of_lt a l (Nat.lt_succ_self i)]

theorem countP_eraseIdx_add_one {α : Type} (p : α → Bool) (l : List α) (i : Nat)
    (hi : i < l.length) (hp : p (l.get ⟨i, hi⟩) = true) :
    l.countP p = (l.eraseIdx i).countP p + 1 := by
  conv_lhs => rw [← List.take_append_drop i l]
  rw [List.drop_eq_getElem_cons hi, List.eraseIdx_eq_take_drop_succ,
    List.countP_append, List.countP_append, List.countP_cons]
  rw [List.get_eq_getElem] at hp
  rw [hp]
  simp
  omega

theorem historyUpdate_shape (l : List RequestItem) (req : RequestItem) (now : Nat)
    (huniq : l.countP (pairMatch req) ≤ 1) :
    ∃ hd tl, historyUpdate l req now = hd :: tl ∧ pairMatch req hd = true ∧
      tl.countP (pairMatch req) = 0 ∧ tl.Sublist l ∧
      (∀ i, l.findIdx? (pairMatch req) = some i →
          ∃ hi : i < l.length, hd = { l.get ⟨i, hi⟩ with LastUsed := now }) ∧
      (l.findIdx? (pairMatch req) = none →
          hd = { req with CreatedAt := now, LastUsed := now }) := by
  unfold historyUpdate
  cases hidx : l.findIdx? (pairMatch req) with
  | none =>
      refine ⟨{ req with CreatedAt := now, LastUsed := now }, l, rfl, ?_, ?_,
        List.Sublist.refl l, ?_, fun _ => rfl⟩
      · simp [pairMatch]
      · rw [List.countP_eq_zero]
        intro a ha
        rw [List.findIdx?_eq_none_iff] at hidx
        simp [hidx a ha]
      · intro i hsome
        exact absurd hsome (by simp)
  | some i =>
      obtain ⟨hi, hpi, hprev⟩ := List.findIdx?_eq_some_iff_getElem.mp hidx
      dsimp only
      rw [dif_pos hi]
      by_cases h0 : 0 < i
      · rw [if_pos h0, eraseIdx_set_same]
        refine ⟨{ l.get ⟨i, hi⟩ with LastUsed := now }, l.eraseIdx i, rfl, ?_, ?_,
          List.eraseIdx_sublist l i, ?_, fun hcon => nomatch hcon⟩
        · have hget : l.get ⟨i, hi⟩ = l[i] := List.get_eq_getElem l ⟨i, hi⟩
          simp only [pairMatch] at hpi ⊢
          rw [hget]
          exact hpi
        · have := countP_eraseIdx_add_one (pairMatch req) l i hi
            (by rw [List.get_eq_getElem]; exact hpi)
          omega
        · intro i2 hsome2
          have hii : i = i2 := by
            injection hsome2
          subst hii
          exact ⟨hi, rfl⟩
      · have hi0 : i = 0 := by omega
        subst hi0
        rw [if_neg h0]
        cases l with
        | nil => exact absurd hi (by simp)
        | cons a t =>
            rw [List.set_cons_zero]
            refine ⟨{ (a :: t).get ⟨0, hi⟩ with LastUsed := now }, t, rfl, ?_, ?_,
              List.sublist_cons_self a t, ?_, fun hcon => nomatch hcon⟩
            · simp only [pairMatch] at hpi ⊢
              exact hpi
            · have ha : pairMatch req a = true := hpi
              have : (a :: t).countP (pairMatch req) =
                  t.countP (pairMatch req) + 1 :=
                List.countP_cons_of_pos _ _ ha
              omega
            · intro i2 hsome2
              have hii : 0 = i2 := by injection hsome2
              subst hii
              exact ⟨hi, rfl⟩

/-- C1 (amended): provided the history holds at most one entry for the
item's `(url, method)` pair and the configured history limit is at
least 1, `addToHistory` leaves exactly one entry for that pair, at the
front of the sequence, the remaining entries keeping their relative
order (they form a sublist of the previous history); when a matching
entry existed it is the one moved to the front with its `lastUsed`
stamp updated, otherwise the new item is stamped and prepended. -/
theorem addToHistory_mru (cm : ConfigManager) (req : RequestItem) (now : Nat)
    (huniq : cm.History.countP (pairMatch req) ≤ 1)
    (hlim : 1 ≤ cm.Config.HistoryLimit) :
    (addToHistory cm req now).1.History.countP (pairMatch req) = 1
  ∧ (addToHistory cm req now).1.History.tail.Sublist cm.History
  ∧ (∀ i, cm.History.findIdx? (pairMatch req) = some i →
      ∃ hi : i < cm.History.length,
        (addToHistory cm req now).1.History.head? =
          some { cm.History.get ⟨i, hi⟩ with LastUsed := now })
  ∧ (cm.History.findIdx? (pairMatch req) = none →
      (addToHistory cm req now).1.History.head? =
        some { req with CreatedAt := now, LastUsed := now }) := by
  obtain ⟨hd, tl, hu, hmatch, htl0, htlsub, hsome, hnone⟩ :=
    historyUpdate_shape cm.History req now huniq
  have hfin : ∃ k, (addToHistory cm req now).1.History = hd :: tl.take k := by
    unfold addToHistory saveHistory
    by_cases hs : cm.Config.SaveHistory = true
    · by_cases htr : ((historyUpdate cm.History req now).length : Int) >
          cm.Config.HistoryLimit
      · refine ⟨cm.Config.HistoryLimit.toNat - 1, ?_⟩
        rw [if_neg (by rw [hs]; simp), if_pos htr]
        obtain ⟨n, hn⟩ : ∃ n, cm.Config.HistoryLimit.toNat = n + 1 :=
          ⟨cm.Config.HistoryLimit.toNat - 1, by omega⟩
        dsimp only
        rw [hu, hn, List.take_succ_cons]
        simp
      · refine ⟨tl.length, ?_⟩
        rw [if_neg (by rw [hs]; simp), if_neg htr]
        dsimp only
        rw [hu, List.take_length]
    · refine ⟨tl.length, ?_⟩
      have hs2 : cm.Config.SaveHistory = false := by
        cases hb : cm.Config.SaveHistory
        · rfl
        · exact absurd hb hs
      rw [if_pos (by rw [hs2]; simp)]
      dsimp only
      rw [hu, List.take_length]
  obtain ⟨k, hk⟩ := hfin
  rw [hk]
  refine ⟨?_, ?_, ?_, ?_⟩
  · rw [List.countP_cons_of_pos _ _ hmatch]
    have hz : (tl.take k).countP (pairMatch req) = 0 :=
      Nat.le_zero.mp (htl0 ▸ List.Sublist.countP_le _ (List.take_sublist k tl))
    omega
  · simp only [List.tail_cons]
    exact List.Sublist.trans (List.take_sublist k tl) htlsub
  · intro i hsi
    obtain ⟨hi, hhd⟩ := hsome i hsi
    exact ⟨hi, by rw [List.head?_cons, hhd]⟩
  · intro hn
    rw [List.head?_cons, hnone hn]

/-- A GET request used by the concrete instances below. -/
def reqGetA : RequestItem :=
  { ID := "1", Name := "a", URL := "http://a.example", Method := "GET",
    Headers := [], Body := "", CreatedAt := 0, LastUsed := 0, Collections := [] }

/-- A GET request for a different URL. -/
def reqGetB : RequestItem :=
  { reqGetA with ID := "2", Name := "b", URL := "http://b.example" }

/-- A store whose loaded history already holds two entries for the same
`(url, method)` pair. -/
def cmDupHistory : ConfigManager :=
  { Config := defaultConfig, History := [reqGetA, reqGetA],
    Collections := [], Environments := [] }

/-- C1 counterexample: starting from a history with two entries for the
same `(url, method)` pair, `addToHistory` leaves two matching entries,
not exactly one — the loop only touches the first match. -/
theorem addToHistory_dup_counterexample :
    (addToHistory cmDupHistory reqGetA 5).1.History.countP (pairMatch reqGetA) = 2 ∧
    ¬ (addToHistory cmDupHistory reqGetA 5).1.History.countP (pairMatch reqGetA) = 1 := by
  decide

/-- A store with a single history entry. -/
def cmOneHistory : ConfigManager :=
  { Config := defaultConfig, History := [reqGetA],
    Collections := [], Environments := [] }

theorem addToHistory_mru_witness :
    cmOneHistory.History.countP (pairMatch reqGetB) ≤ 1 ∧
    1 ≤ cmOneHistory.Config.HistoryLimit ∧
    (addToHistory cmOneHistory reqGetB 9).1.History.countP (pairMatch reqGetB) = 1 :=
  ⟨by decide, by decide,
    (addToHistory_mru cmOneHistory reqGetB 9 (by decide) (by decide)).1⟩

/-- `addToHistory` never changes the configuration (only the history). -/
theorem addToHistory_config_eq (cm : ConfigManager) (req : RequestItem)
    (now : Nat) : (addToHistory cm req now).1.Config = cm.Config := by
  unfold addToHistory saveHistory
  split
  · rfl
  · split
    · rfl
    · rfl

/-- One `addToHistory` call keeps the history within the limit when
saving is enabled. -/
theorem addToHistory_length_le (cm : ConfigManager) (req : RequestItem)
    (now : Nat) (hs : cm.Config.SaveHistory = true)
    (hl : (cm.History.length : Int) ≤ cm.Config.HistoryLimit) :
    ((addToHistory cm req now).1.History.length : Int) ≤
      cm.Config.HistoryLimit := by
  unfold addToHistory saveHistory
  split
  · next hcond => rw [hs] at hcond; simp at hcond
  · split
    · next hcond =>
        dsimp only
        rw [List.length_take]
        omega
    · next hcond =>
        dsimp only at hcond ⊢
        omega

/-- The sequence of `recordHistory` calls from the claim: fold
`addToHistory` over a list of request/timestamp pairs. -/
def runHistoryCalls (cm : ConfigManager) (calls : List (RequestItem × Nat)) :
    ConfigManager :=
  calls.foldl (fun st c => (addToHistory st c.1 c.2).1) cm

theorem runHistoryCalls_invariant :
    ∀ (calls : List (RequestItem × Nat)) (cm : ConfigManager),
      cm.Config.SaveHistory = true →
      (cm.History.length : Int) ≤ cm.Config.HistoryLimit →
      (runHistoryCalls cm calls).Config = cm.Config ∧
      ((runHistoryCalls cm calls).History.length : Int) ≤
        cm.Config.HistoryLimit := by
  intro calls
  induction calls with
  | nil => intro cm h1 h2; exact ⟨rfl, h2⟩
  | cons c cs ih =>
      intro cm h1 h2
      have hcfg := addToHistory_config_eq cm c.1 c.2
      have hlen := addToHistory_length_le cm c.1 c.2 h1 h2
      have hstep := ih ((addToHistory cm c.1 c.2).1)
        (by rw [hcfg]; exact h1) (by rw [hcfg]; exact hlen)
      have hrun : runHistoryCalls cm (c :: cs) =
          runHistoryCalls ((addToHistory cm c.1 c.2).1) cs := rfl
      rw [hrun, hstep.1, hcfg]
      refine ⟨rfl, ?_⟩
      rw [hcfg] at hstep
      exact hstep.2

/-- C2 (amended): when history saving is enabled and the store starts
within the configured limit, the history length stays within the limit
after every prefix of any sequence of `recordHistory` calls.  (When the
save-history flag is off, the bound fails: see the counterexample.) -/
theorem runHistoryCalls_bounded (cm : ConfigManager)
    (calls : List (RequestItem × Nat)) (hs : cm.Config.SaveHistory = true)
    (hl : (cm.History.length : Int) ≤ cm.Config.HistoryLimit) :
    ∀ n, ((runHistoryCalls cm (calls.take n)).History.length : Int) ≤
      cm.Config.HistoryLimit :=
  fun n => (runHistoryCalls_invariant (calls.take n) cm hs hl).2

/-- A store with saving disabled and a history limit of 1, already at
the limit. -/
def cmHistOffLim1 : ConfigManager :=
  { Config := { defaultConfig with SaveHistory := false, HistoryLimit := 1 }
    History := [reqGetA]
    Collections := []
    Environments := [] }

/-- C2 counterexample: with the save-history flag off the truncation in
`saveHistory` is skipped, so a single call pushes the history past the
configured limit — the bound does not hold "regardless of the
save-history flag". -/
theorem historyLimit_counterexample :
    cmHistOffLim1.Config.SaveHistory = false ∧
    (cmHistOffLim1.History.length : Int) ≤ cmHistOffLim1.Config.HistoryLimit ∧
    ¬ (((runHistoryCalls cmHistOffLim1 [(reqGetB, 3)]).History.length : Int) ≤
        cmHistOffLim1.Config.HistoryLimit) := by
  decide

/-- A store with saving enabled and a history limit of 1. -/
def cmHistOnLim1 : ConfigManager :=
  { Config := { defaultConfig with HistoryLimit := 1 }
    History := []
    Collections := []
    Environments := [] }

theorem runHistoryCalls_bounded_witness :
    ((runHistoryCalls cmHistOnLim1 ([(reqGetA, 1), (reqGetB, 2)].take 2)).History.length : Int) ≤
      cmHistOnLim1.Config.HistoryLimit :=
  runHistoryCalls_bounded cmHistOnLim1 [(reqGetA, 1), (reqGetB, 2)] (by decide)
    (by decide) 2

/-- A store with saving disabled and empty history. -/
def cmHistOff : ConfigManager :=
  { Config := { defaultConfig with SaveHistory := false }
    History := []
    Collections := []
    Environments := [] }

/-- C3 counterexample: with the save-history flag off, `addToHistory`
still returns success but the store state changes — the in-memory
history is mutated before `saveHistory` consults the flag. -/
theorem addToHistory_disabled_counterexample :
    cmHistOff.Config.SaveHistory = false ∧
    (addToHistory cmHistOff reqGetA 7).2 = none ∧
    (addToHistory cmHistOff reqGetA 7).1 ≠ cmHistOff := by
  decide

/-- C3 (amended): with the save-history flag off, `addToHistory`
returns success, performs no truncation and no persistence, and leaves
config, collections and environments unchanged — but the in-memory
history is still mutated by the move-to-front/prepend step. -/
theorem addToHistory_disabled (cm : ConfigManager) (req : RequestItem)
    (now : Nat) (hoff : cm.Config.SaveHistory = false) :
    (addToHistory cm req now).2 = none ∧
    (addToHistory cm req now).1.Config = cm.Config ∧
    (addToHistory cm req now).1.Collections = cm.Collections ∧
    (addToHistory cm req now).1.Environments = cm.Environments ∧
    (addToHistory cm req now).1.History = historyUpdate cm.History req now := by
  unfold addToHistory saveHistory
  rw [if_pos (by rw [hoff]; rfl)]
  exact ⟨rfl, rfl, rfl, rfl, rfl⟩

theorem addToHistory_disabled_witness :
    (addToHistory cmHistOff reqGetA 7).2 = none ∧
    (addToHistory cmHistOff reqGetA 7).1.Config = cmHistOff.Config ∧
    (addToHistory cmHistOff reqGetA 7).1.Collections = cmHistOff.Collections ∧
    (addToHistory cmHistOff reqGetA 7).1.Environments = cmHistOff.Environments ∧
    (addToHistory cmHistOff reqGetA 7).1.History =
      historyUpdate cmHistOff.History reqGetA 7 :=
  addToHistory_disabled cmHistOff reqGetA 7 rfl

/-! ## Collection upsert (claim C7) -/

theorem findIdx?_set_self (l : List RequestItem) (req : RequestItem) (i : Nat)
    (h : l.findIdx? (pairMatch req) = some i) :
    (l.set i req).findIdx? (pairMatch req) = some i := by
  obtain ⟨hi, hpi, hprev⟩ := List.findIdx?_eq_some_iff_getElem.mp h
  apply List.findIdx?_eq_some_iff_getElem.mpr
  refine ⟨by simpa using hi, ?_, ?_⟩
  · rw [List.getElem_set_self (by simpa using hi)]
    simp [pairMatch]
  · intro j hj
    rw [List.getElem_set_ne (by omega)]
    exact hprev j hj

theorem findIdx?_append_self (l : List RequestItem) (req : RequestItem)
    (h : l.findIdx? (pairMatch req) = none) :
    (l ++ [req]).findIdx? (pairMatch req) = some l.length := by
  rw [List.findIdx?_append, h]
  have hone : ([req] : List RequestItem).findIdx? (pairMatch req) = some 0 := by
    simp [List.findIdx?_cons, pairMatch]
  rw [hone]
  simp

theorem set_append_self {α : Type} (l : List α) (a b : α) :
    (l ++ [a]).set l.length b = l ++ [b] := by
  rw [List.set_append_right _ _ (Nat.le_refl _)]
  simp

theorem find?_isSome_iff_mapLookup {α : Type} (m : List (String × α))
    (k : String) :
    (m.find? (fun p => p.1 == k)).isSome = (mapLookup m k).isSome := by
  unfold mapLookup
  cases m.find? (fun p => p.1 == k) <;> rfl

theorem mapInsert_idem {α : Type} (m : List (String × α)) (k : String) (v : α) :
    mapInsert (mapInsert m k v) k v = mapInsert m k v := by
  by_cases hm : (m.find? (fun p => p.1 == k)).isSome = true
  · unfold mapInsert
    rw [if_pos hm]
    have hm2 : (((m.map (fun p => if p.1 == k then (k, v) else p)).find?
        (fun p => p.1 == k)).isSome = true) := by
      rw [find?_isSome_iff_mapLookup, mapLookup_map_replace_self v m hm]
      rfl
    rw [if_pos hm2, List.map_map]
    apply List.map_congr_left
    intro p _
    simp only [Function.comp_apply]
    by_cases hp : p.1 == k
    · rw [if_pos hp, if_pos (by simp)]
    · rw [if_neg hp, if_neg hp]
  · unfold mapInsert
    rw [if_neg hm]
    have hnone : m.find? (fun p => p.1 == k) = none := by
      cases hf : m.find? (fun p => p.1 == k) with
      | none => rfl
      | some p => rw [hf] at hm; simp at hm
    have hm2 : (((m ++ [(k, v)]).find? (fun p => p.1 == k)).isSome = true) := by
      rw [List.find?_append, hnone]
      simp
    rw [if_pos hm2, List.map_append]
    have hmid : m.map (fun p => if p.1 == k then (k, v) else p) = m := by
      have hid : ∀ p ∈ m, (if p.1 == k then (k, v) else p) = p := by
        intro p hp
        rw [List.find?_eq_none] at hnone
        rw [if_neg (hnone p hp)]
      rw [List.map_congr_left hid]
      simp
    rw [hmid]
    have hlast : ([(k, v)] : List (String × α)).map
        (fun p => if p.1 == k then (k, v) else p) = [(k, v)] := by
      simp
    rw [hlast]

theorem addToCollection_found (cm : ConfigManager) (name : String)
    (req : RequestItem) (c0 : Collection) (i : Nat)
    (hc : (mapLookup cm.Collections name).getD { Name := name, Requests := [] } = c0)
    (hidx : c0.Requests.findIdx? (pairMatch req) = some i) :
    addToCollection cm name req =
      ({ cm with
          Collections := mapInsert cm.Collections name
              ({ c0 with Requests := c0.Requests.set i req }) },
        none) := by
  unfold addToCollection
  rw [hc]
  dsimp only
  rw [hidx]

theorem addToCollection_notfound (cm : ConfigManager) (name : String)
    (req : RequestItem) (c0 : Collection)
    (hc : (mapLookup cm.Collections name).getD { Name := name, Requests := [] } = c0)
    (hidx : c0.Requests.findIdx? (pairMatch req) = none) :
    addToCollection cm name req =
      ({ cm with
          Collections := mapInsert cm.Collections name
              ({ c0 with Requests := c0.Requests ++ [req] }) },
        none) := by
  unfold addToCollection
  rw [hc]
  dsimp only
  rw [hidx]

theorem addToCollection_idem (cm : ConfigManager) (name : String)
    (req : RequestItem) :
    addToCollection (addToCollection cm name req).1 name req =
      addToCollection cm name req := by
  cases hidx : ((mapLookup cm.Collections name).getD
      { Name := name, Requests := [] }).Requests.findIdx? (pairMatch req) with
  | some i =>
      have h1 := addToCollection_found cm name req _ i rfl hidx
      have h1f : (addToCollection cm name req).1 =
          { cm with
              Collections := mapInsert cm.Collections name
                  ({ (mapLookup cm.Collections name).getD { Name := name, Requests := [] } with
                      Requests := ((mapLookup cm.Collections name).getD
                        { Name := name, Requests := [] }).Requests.set i req }) } :=
        congrArg Prod.fst h1
      have hlook : (mapLookup ((addToCollection cm name req).1).Collections name).getD
          { Name := name, Requests := [] } =
          { (mapLookup cm.Collections name).getD { Name := name, Requests := [] } with
              Requests := ((mapLookup cm.Collections name).getD
                { Name := name, Requests := [] }).Requests.set i req } := by
        rw [h1f]
        dsimp only
        rw [mapLookup_mapInsert, if_pos rfl]
        rfl
      have hidx2 := findIdx?_set_self
        ((mapLookup cm.Collections name).getD { Name := name, Requests := [] }).Requests
        req i hidx
      have h2 := addToCollection_found (addToCollection cm name req).1 name req
        _ i hlook hidx2
      rw [h2, h1f, h1]
      dsimp only
      rw [List.set_set, mapInsert_idem]
  | none =>
      have h1 := addToCollection_notfound cm name req _ rfl hidx
      have h1f : (addToCollection cm name req).1 =
          { cm with
              Collections := mapInsert cm.Collections name
                  ({ (mapLookup cm.Collections name).getD { Name := name, Requests := [] } with
                      Requests := ((mapLookup cm.Collections name).getD
                        { Name := name, Requests := [] }).Requests ++ [req] }) } :=
        congrArg Prod.fst h1
      have hlook : (mapLookup ((addToCollection cm name req).1).Collections name).getD
          { Name := name, Requests := [] } =
          { (mapLookup cm.Collections name).getD { Name := name, Requests := [] } with
              Requests := ((mapLookup cm.Collections name).getD
                { Name := name, Requests := [] }).Requests ++ [req] } := by
        rw [h1f]
        dsimp only
        rw [mapLookup_mapInsert, if_pos rfl]
        rfl
      have hidx2 := findIdx?_append_self
        ((mapLookup cm.Collections name).getD { Name := name, Requests := [] }).Requests
        req hidx
      have h2 := addToCollection_found (addToCollection cm name req).1 name req
        _ _ hlook hidx2
      rw [h2, h1f, h1]
      dsimp only
      rw [set_append_self, mapInsert_idem]

theorem addToCollection_count (cm : ConfigManager) (name : String)
    (req : RequestItem)
    (h : ∀ c, mapLookup cm.Collections name = some c →
      c.Requests.countP (pairMatch req) ≤ 1) :
    ∃ c, mapLookup (addToCollection cm name req).1.Collections name = some c ∧
      c.Requests.countP (pairMatch req) = 1 := by
  have hc0count : ((mapLookup cm.Collections name).getD
      { Name := name, Requests := [] }).Requests.countP (pairMatch req) ≤ 1 := by
    cases hl : mapLookup cm.Collections name with
    | none => simp
    | some c => exact h c hl
  cases hidx : ((mapLookup cm.Collections name).getD
      { Name := name, Requests := [] }).Requests.findIdx? (pairMatch req) with
  | some i =>
      have h1f := congrArg Prod.fst (addToCollection_found cm name req _ i rfl hidx)
      refine ⟨{ (mapLookup cm.Collections name).getD { Name := name, Requests := [] } with
          Requests := ((mapLookup cm.Collections name).getD
            { Name := name, Requests := [] }).Requests.set i req }, ?_, ?_⟩
      · rw [h1f]
        dsimp only
        rw [mapLookup_mapInsert, if_pos rfl]
      · obtain ⟨hi, hpi, _⟩ := List.findIdx?_eq_some_iff_getElem.mp hidx
        have hsplit : ((mapLookup cm.Collections name).getD
            { Name := name, Requests := [] }).Requests.set i req =
            ((mapLookup cm.Collections name).getD
              { Name := name, Requests := [] }).Requests.take i ++
            req :: ((mapLookup cm.Collections name).getD
              { Name := name, Requests := [] }).Requests.drop (i + 1) := by
          rw [List.set_eq_take_append_cons_drop, if_pos hi]
        have hl2 := countP_eraseIdx_add_one (pairMatch req)
          ((mapLookup cm.Collections name).getD
            { Name := name, Requests := [] }).Requests i hi
          (by rw [List.get_eq_getElem]; exact hpi)
        rw [List.eraseIdx_eq_take_drop_succ, List.countP_append] at hl2
        dsimp only
        rw [hsplit, List.countP_append,
          List.countP_cons_of_pos _ _ (by simp [pairMatch])]
        omega
  | none =>
      have h1f := congrArg Prod.fst (addToCollection_notfound cm name req _ rfl hidx)
      refine ⟨{ (mapLookup cm.Collections name).getD { Name := name, Requests := [] } with
          Requests := ((mapLookup cm.Collections name).getD
            { Name := name, Requests := [] }).Requests ++ [req] }, ?_, ?_⟩
      · rw [h1f]
        dsimp only
        rw [mapLookup_mapInsert, if_pos rfl]
      · have hz : ((mapLookup cm.Collections name).getD
            { Name := name, Requests := [] }).Requests.countP (pairMatch req) = 0 := by
          rw [List.countP_eq_zero]
          intro a ha
          rw [List.findIdx?_eq_none_iff] at hidx
          simp [hidx a ha]
        dsimp only
        rw [List.countP_append, hz,
          List.countP_cons_of_pos _ _ (by simp [pairMatch])]
        rfl

/-- C7 (amended): `addToCollection` is idempotent on repeated identical
input — the second call leaves the store exactly as the first left it;
provided the target collection initially holds at most one entry for
the item's `(url, method)` pair, two calls leave exactly one matching
entry; a missing collection is created holding just the item; a re-add
with a matching pair replaces that entry in place, preserving its
position. -/
theorem upsertCollectionRequest_spec (cm : ConfigManager) (name : String)
    (req : RequestItem) :
    (addToCollection (addToCollection cm name req).1 name req =
      addToCollection cm name req)
  ∧ ((∀ c, mapLookup cm.Collections name = some c →
        c.Requests.countP (pairMatch req) ≤ 1) →
      ∃ c, mapLookup
          (addToCollection (addToCollection cm name req).1 name req).1.Collections
          name = some c ∧
        c.Requests.countP (pairMatch req) = 1)
  ∧ (mapLookup cm.Collections name = none →
      mapLookup (addToCollection cm name req).1.Collections name =
        some { Name := name, Requests := [req] })
  ∧ (∀ c0 i, mapLookup cm.Collections name = some c0 →
      c0.Requests.findIdx? (pairMatch req) = some i →
      mapLookup (addToCollection cm name req).1.Collections name =
        some { c0 with Requests := c0.Requests.set i req }) := by
  refine ⟨addToCollection_idem cm name req, ?_, ?_, ?_⟩
  · intro h
    have hidem : (addToCollection (addToCollection cm name req).1 name
        req).1.Collections = (addToCollection cm name req).1.Collections := by
      rw [addToCollection_idem]
    rw [hidem]
    exact addToCollection_count cm name req h
  · intro hnone
    have hc0 : (mapLookup cm.Collections name).getD { Name := name, Requests := [] } =
        ({ Name := name, Requests := [] } : Collection) := by rw [hnone]; rfl
    have hidx : (({ Name := name, Requests := [] } : Collection)).Requests.findIdx?
        (pairMatch req) = none := rfl
    have h1f := congrArg Prod.fst
      (addToCollection_notfound cm name req _ hc0 hidx)
    rw [h1f]
    dsimp only
    rw [mapLookup_mapInsert, if_pos rfl]
    simp
  · intro c0 i hsome hidx
    have hc0 : (mapLookup cm.Collections name).getD { Name := name, Requests := [] } = c0 := by
      rw [hsome]; rfl
    have h1f := congrArg Prod.fst
      (addToCollection_found cm name req c0 i hc0 hidx)
    rw [h1f]
    dsimp only
    rw [mapLookup_mapInsert, if_pos rfl]

/-- A collection already holding two entries for the same pair. -/
def cmDupCollection : ConfigManager :=
  { Config := defaultConfig
    History := []
    Collections := [("c", { Name := "c", Requests := [reqGetA, reqGetA] })]
    Environments := [] }

/-- C7 counterexample: starting from a collection with two entries for
the same `(url, method)` pair, two identical upserts still leave two
matching entries, not exactly one — the loop only replaces the first
match. -/
theorem upsertCollectionRequest_counterexample :
    ¬ (∃ c, mapLookup
        (addToCollection (addToCollection cmDupCollection "c" reqGetA).1 "c"
          reqGetA).1.Collections "c" = some c ∧
      c.Requests.countP (pairMatch reqGetA) = 1) := by
  intro hcon
  obtain ⟨c, hc, hcount⟩ := hcon
  have hc2 : c = { Name := "c", Requests := [reqGetA, reqGetA] } := by
    have := hc.symm.trans (by decide :
      mapLookup (addToCollection (addToCollection cmDupCollection "c" reqGetA).1
        "c" reqGetA).1.Collections "c" =
        some { Name := "c", Requests := [reqGetA, reqGetA] })
    exact Option.some.inj this
  subst hc2
  revert hcount
  decide

theorem upsertCollectionRequest_spec_witness :
    ∃ c, mapLookup
        (addToCollection (addToCollection cmEnvW "api" reqGetA).1 "api"
          reqGetA).1.Collections "api" = some c ∧
      c.Requests.countP (pairMatch reqGetA) = 1 :=
  (upsertCollectionRequest_spec cmEnvW "api" reqGetA).2.1
    (fun _ hc => nomatch hc)

theorem parseHeaders_lastWins_witness :
    mapLookup (parseHeaders "A: 1\nB:\nA: 2") "A" = some "2" ∧ "A" ≠ "" :=
  ⟨(parseHeaders_lastWins.1 "A: 1\nB:\nA: 2" "A").trans (by decide),
   parseHeaders_lastWins.2.1 "A: 1" "A" "1" (by decide)⟩
